import Mathlib

/-!
Verification of the clinical-chart extraction program (`assignment_api.py`).

The Python source is shallowly embedded: each Python function becomes an
executable Lean definition over `List`-based data, and the claims of the
specification are settled as theorems about those definitions.
-/

set_option maxHeartbeats 1000000

/-- Executable contiguous-sublist test: `true` iff `l₁` occurs as an infix
of `l₂`. -/
def isInfixB (l₁ : List Char) : List Char → Bool
  | [] => l₁.isEmpty
  | a :: t => l₁.isPrefixOf (a :: t) || isInfixB l₁ t

theorem isInfixB_iff (l₁ : List Char) :
    ∀ l₂, isInfixB l₁ l₂ = true ↔ l₁ <:+: l₂ := by
  intro l₂
  induction l₂ with
  | nil =>
    simp [isInfixB, List.isEmpty_iff]
  | cons a t ih =>
    simp [isInfixB, ih, List.infix_cons_iff, List.isPrefixOf_iff_prefix]

/-- Model of Python `needle in hay` (substring containment) on strings. -/
def pyIn (needle hay : String) : Bool :=
  isInfixB needle.data hay.data

/-- `TextualWord`: `{x0, x1, text}`.  The float coordinates are modelled as
integers; no claim depends on them. -/
structure TextualWord where
  x0 : Int
  x1 : Int
  text : String
deriving DecidableEq

/-- `ExtraTextualWord(TextualWord)`: adds `fontname` and `size`. -/
structure ExtraTextualWord extends TextualWord where
  fontname : String
  size : Int
deriving DecidableEq

/-- `ExtraTextualWord.is_bold`: `"Bold" in self.fontname`. -/
def ExtraTextualWord.is_bold (w : ExtraTextualWord) : Bool :=
  pyIn "Bold" w.fontname

/-- Loop body of `split_to_sections`: `cur` is the accumulating
`current_section`, the argument list is the remaining words. -/
def split_go (cur : List ExtraTextualWord) :
    List ExtraTextualWord → List (List ExtraTextualWord)
  | [] => if cur = [] then [] else [cur]
  | w :: ws =>
    if w.is_bold then
      if cur = [] then split_go [w] ws
      else cur :: split_go [w] ws
    else
      split_go (cur ++ [w]) ws

/-- `split_to_sections(words)`: split into sections, each section starting at a
bold word. -/
def split_to_sections (words : List ExtraTextualWord) :
    List (List ExtraTextualWord) :=
  split_go [] words

theorem split_go_join (ws : List ExtraTextualWord) :
    ∀ cur, (split_go cur ws).flatten = cur ++ ws := by
  induction ws with
  | nil =>
    intro cur
    by_cases h : cur = [] <;> simp [split_go, h]
  | cons w ws ih =>
    intro cur
    by_cases hb : w.is_bold <;> by_cases h : cur = [] <;>
      simp [split_go, hb, h, ih]

theorem split_go_ne_nil (ws : List ExtraTextualWord) :
    ∀ cur, ∀ s ∈ split_go cur ws, s ≠ [] := by
  induction ws with
  | nil =>
    intro cur s hs
    by_cases h : cur = []
    · simp [split_go, h] at hs
    · simp [split_go, h] at hs
      simp [hs, h]
  | cons w ws ih =>
    intro cur s hs
    by_cases hb : w.is_bold <;> by_cases h : cur = []
    · simp only [split_go, hb, if_true, h] at hs
      exact ih [w] s hs
    · simp only [split_go, hb, if_true, if_neg h, List.mem_cons] at hs
      rcases hs with rfl | hs
      · exact h
      · exact ih [w] s hs
    · simp only [split_go, hb] at hs
      exact ih (cur ++ [w]) s hs
    · simp only [split_go, hb] at hs
      exact ih (cur ++ [w]) s hs

theorem split_go_tail_nonbold (ws : List ExtraTextualWord) :
    ∀ cur, (∀ w ∈ cur.tail, w.is_bold = false) →
      ∀ s ∈ split_go cur ws, ∀ w ∈ s.tail, w.is_bold = false := by
  induction ws with
  | nil =>
    intro cur hcur s hs
    by_cases h : cur = []
    · simp [split_go, h] at hs
    · simp [split_go, h] at hs
      exact hs ▸ hcur
  | cons w ws ih =>
    intro cur hcur s hs
    by_cases hb : w.is_bold = true
    · by_cases h : cur = []
      · simp only [split_go, hb, if_true, h] at hs
        exact ih [w] (by simp) s hs
      · simp only [split_go, hb, if_true, if_neg h, List.mem_cons] at hs
        rcases hs with rfl | hs
        · exact hcur
        · exact ih [w] (by simp) s hs
    · simp only [split_go, hb, if_false, Bool.false_eq_true] at hs
      refine ih (cur ++ [w]) ?_ s hs
      intro u hu
      rcases cur with _ | ⟨a, t⟩
      · simp at hu
      · simp at hu
        rcases hu with hu | rfl
        · exact hcur u (by simpa using hu)
        · simpa using hb

theorem split_go_heads_bold (ws : List ExtraTextualWord) :
    ∀ h t, h.is_bold = true →
      ∀ s ∈ split_go (h :: t) ws, ∃ w u, s = w :: u ∧ w.is_bold = true := by
  induction ws with
  | nil =>
    intro h t hh s hs
    simp [split_go] at hs
    exact ⟨h, t, hs, hh⟩
  | cons w ws ih =>
    intro h t hh s hs
    by_cases hb : w.is_bold
    · simp only [split_go, hb, if_true] at hs
      simp only [if_neg (List.cons_ne_nil h t), List.mem_cons] at hs
      rcases hs with rfl | hs
      · exact ⟨h, t, rfl, hh⟩
      · exact ih w [] hb s hs
    · simp only [split_go, hb] at hs
      exact ih h (t ++ [w]) hh s (by simpa using hs)

theorem split_go_after_first_bold (ws : List ExtraTextualWord) :
    ∀ cur, ∀ s ∈ (split_go cur ws).tail,
      ∃ w u, s = w :: u ∧ w.is_bold = true := by
  induction ws with
  | nil =>
    intro cur s hs
    by_cases h : cur = [] <;> simp [split_go, h] at hs
  | cons w ws ih =>
    intro cur s hs
    by_cases hb : w.is_bold <;> by_cases h : cur = []
    · simp only [split_go, hb, if_true, h] at hs
      exact split_go_heads_bold ws w [] hb s (List.mem_of_mem_tail hs)
    · simp only [split_go, hb, if_true, if_neg h, List.tail_cons] at hs
      exact split_go_heads_bold ws w [] hb s hs
    · simp only [split_go, hb] at hs
      exact ih (cur ++ [w]) s hs
    · simp only [split_go, hb] at hs
      exact ih (cur ++ [w]) s hs

/-- C1: concatenating the sections of `split_to_sections(T)` in order yields
exactly the input token list `T`: nothing is added, dropped or reordered. -/
theorem split_to_sections_concat (ws : List ExtraTextualWord) :
    (split_to_sections ws).flatten = ws := by
  simpa using split_go_join ws []

/-- C2: every section produced by `split_to_sections` is non-empty, every
section after the first begins with a bold token, and bold tokens occur only
at the first position of a section (so a new section begins exactly at each
bold token, non-bold tokens before the first bold token forming a leading
section). -/
theorem split_to_sections_boundaries (ws : List ExtraTextualWord) :
    (∀ s ∈ split_to_sections ws, s ≠ []) ∧
    (∀ s ∈ (split_to_sections ws).tail, ∃ w u, s = w :: u ∧ w.is_bold = true) ∧
    (∀ s ∈ split_to_sections ws, ∀ w ∈ s.tail, w.is_bold = false) := by
  refine ⟨split_go_ne_nil ws [], split_go_after_first_bold ws [], ?_⟩
  exact split_go_tail_nonbold ws [] (by simp)

/-- Closed instance of `split_to_sections_boundaries` on a concrete document
with a non-bold leading token and two bold section starts. -/
theorem split_to_sections_boundaries_witness :
    ∃ w u, ([⟨⟨0, 1, "Results"⟩, "Times-Bold", 10⟩] :
        List ExtraTextualWord) = w :: u ∧ w.is_bold = true := by
  refine (split_to_sections_boundaries
    [⟨⟨0, 1, "intro"⟩, "Times-Roman", 10⟩,
     ⟨⟨0, 1, "Procedures"⟩, "Times-Bold", 10⟩,
     ⟨⟨0, 1, "Results"⟩, "Times-Bold", 10⟩]).2.1
    [⟨⟨0, 1, "Results"⟩, "Times-Bold", 10⟩] ?_
  decide

/-- ASCII model of Python whitespace (the characters stripped by `str.strip()`
and matched by `\s`). -/
def isPySpace (c : Char) : Bool :=
  c = ' ' || c = '\t' || c = '\n' || c = '\r' ||
    c = Char.ofNat 11 || c = Char.ofNat 12

/-- Python `str.strip()` on a character list: drop whitespace from both
ends. -/
def pyStripL (l : List Char) : List Char :=
  ((l.dropWhile isPySpace).reverse.dropWhile isPySpace).reverse

/-- Python `str.strip()`. -/
def pyStrip (s : String) : String :=
  String.mk (pyStripL s.data)

/-- Python `str.replace(' ', '')`: remove every space character. -/
def removeSpaces (s : String) : String :=
  String.mk (s.data.filter (fun c => c ≠ ' '))

/-- ASCII lowercasing of one character, as Python `str.lower()` does for the
ASCII range. -/
def asciiLowerChar (c : Char) : Char :=
  if 'A' ≤ c ∧ c ≤ 'Z' then Char.ofNat (c.toNat + 32) else c

/-- Python `str.lower()` (ASCII model). -/
def pyLower (s : String) : String :=
  String.mk (s.data.map asciiLowerChar)

/-- Python `str.startswith(pre)`. -/
def pyStartsWith (s pre : String) : Bool :=
  pre.data.isPrefixOf s.data

/-- Gregorian leap-year test, as used by `datetime`. -/
def isLeapYear (y : Nat) : Bool :=
  (y % 4 = 0 && y % 100 ≠ 0) || y % 400 = 0

/-- Days in a month, as validated by `datetime(year, month, day)`. -/
def daysInMonth (y m : Nat) : Nat :=
  if m = 2 then (if isLeapYear y then 29 else 28)
  else if m = 4 ∨ m = 6 ∨ m = 9 ∨ m = 11 then 30
  else 31

/-- Numeric value of a digit string. -/
def digitsToNat (l : List Char) : Nat :=
  l.foldl (fun n c => n * 10 + (c.toNat - '0'.toNat)) 0

/-- Python `s.split('/')`: split at every slash, keeping empty pieces. -/
def splitOnSlash : List Char → List (List Char)
  | [] => [[]]
  | c :: rest =>
    match splitOnSlash rest with
    | [] => if c = '/' then [[], []] else [[c]]
    | g :: gs => if c = '/' then [] :: g :: gs else (c :: g) :: gs

/-- The date value produced by `datetime.strptime(s, "%m/%d/%Y")`; only the
year/month/day fields are modelled. -/
structure PyDate where
  year : Nat
  month : Nat
  day : Nat
deriving DecidableEq

/-- Model of `datetime.strptime(s, "%m/%d/%Y")`: the string must be exactly
a 1-2 digit month (1..12), a slash, a 1-2 digit day (1..31), a slash and a
4-digit year (nonzero), and the day must exist in that month; otherwise the
parse fails (Python raises `ValueError`). -/
def parse_mdY (s : String) : Option PyDate :=
  match splitOnSlash s.data with
  | [ms, ds, ys] =>
    if (ms.all Char.isDigit = true ∧ (ms.length = 1 ∨ ms.length = 2) ∧
          1 ≤ digitsToNat ms ∧ digitsToNat ms ≤ 12) ∧
       (ds.all Char.isDigit = true ∧ (ds.length = 1 ∨ ds.length = 2) ∧
          1 ≤ digitsToNat ds ∧ digitsToNat ds ≤ 31) ∧
       (ys.all Char.isDigit = true ∧ ys.length = 4 ∧ 1 ≤ digitsToNat ys) ∧
       digitsToNat ds ≤ daysInMonth (digitsToNat ys) (digitsToNat ms)
    then some ⟨digitsToNat ys, digitsToNat ms, digitsToNat ds⟩
    else none
  | _ => none

/-- `Chart`: `{name, dob, has_valid_ekg}`.  `name` and `dob` start as Python
`None`, modelled with `Option`. -/
structure Chart where
  name : Option String
  dob : Option PyDate
  has_valid_ekg : Bool
deriving DecidableEq

/-- Python tuple comparison `(a1, a2) < (b1, b2)` on nat pairs. -/
def tupleLt (a b : Nat × Nat) : Bool :=
  decide (a.1 < b.1 ∨ (a.1 = b.1 ∧ a.2 < b.2))

/-- The age formula of `Chart.age` for a present date of birth:
`today.year - dob.year - ((today.month, today.day) < (dob.month, dob.day))`. -/
def age_of (today dob : PyDate) : Int :=
  (today.year : Int) - (dob.year : Int) -
    (if tupleLt (today.month, today.day) (dob.month, dob.day) then 1 else 0)

/-- `Chart.age`: accessing `self.dob.year` on an absent (`None`) date of
birth raises in Python; modelled as `Except.error`. -/
def Chart.age (c : Chart) (today : PyDate) : Except String Int :=
  match c.dob with
  | none => Except.error "dateOfBirth is absent"
  | some d => Except.ok (age_of today d)

/-- Default word returned by out-of-range `getD` lookups; every lookup in the
scan is guarded so it is never consulted. -/
def dw : TextualWord := ⟨0, 0, ""⟩

/-- Stop words terminating name collection in `populate_chart`. -/
def name_stop_words : List String :=
  ["dob:", "procedures", "lab", "results", "ekg", "radiology"]

/-- Trigger of the name check at index `i`:
`i+1 < len(words)` and (`combined_text == "patientname"` or
(`words[i].text.lower() == 'patient'` and
`words[i+1].text.lower().startswith('name')`)). -/
def name_trigger (words : List TextualWord) (i : Nat) : Bool :=
  decide (i + 1 < words.length) &&
    (removeSpaces (pyLower (words.getD i dw).text) == "patientname" ||
      (pyLower (words.getD i dw).text == "patient" &&
        pyStartsWith (pyLower (words.getD (i + 1) dw).text) "name"))

/-- The name collected on a trigger at index `i`: texts from index `i+2`
until the first stop word, joined with single spaces. -/
def name_value (words : List TextualWord) (i : Nat) : String :=
  " ".intercalate
    (((words.drop (i + 2)).takeWhile
        (fun w => !(name_stop_words.contains (pyLower w.text)))).map
      (fun w => w.text))

/-- Name-extraction step of the scan loop. -/
def name_step (words : List TextualWord) (i : Nat) (st : Chart) : Chart :=
  if name_trigger words i then { st with name := some (name_value words i) }
  else st

/-- DOB-extraction step of the scan loop. -/
def dob_step (words : List TextualWord) (i : Nat) (st : Chart) : Chart :=
  if pyLower (pyStrip (words.getD i dw).text) == "dob:" then
    if i + 1 < words.length then
      match parse_mdY (words.getD (i + 1) dw).text with
      | some d => { st with dob := some d }
      | none => st
    else st
  else st

/-- EKG condition at index `i`: `i < len(words) - 2` and the three texts
lowercase to `"ekg"`, `"results"`, `"valid"`. -/
def ekg_cond (words : List TextualWord) (i : Nat) : Bool :=
  decide (i < words.length - 2) &&
    (pyLower (words.getD i dw).text == "ekg" &&
      (pyLower (words.getD (i + 1) dw).text == "results" &&
        pyLower (words.getD (i + 2) dw).text == "valid"))

/-- EKG-extraction step of the scan loop. -/
def ekg_step (words : List TextualWord) (i : Nat) (st : Chart) : Chart :=
  if ekg_cond words i then { st with has_valid_ekg := true } else st

/-- One iteration of `for i, word in enumerate(words)` in `populate_chart`:
the name check, then the DOB check, then the EKG check. -/
def scan_step (words : List TextualWord) (st : Chart) (i : Nat) : Chart :=
  ekg_step words i (dob_step words i (name_step words i st))

/-- Scan of one page's word list. -/
def scan_page (words : List TextualWord) (st : Chart) : Chart :=
  (List.range words.length).foldl (scan_step words) st

/-- `populate_chart(page_to_words)`: scan every page in order, starting from
`name = None, dob = None, has_valid_ekg = False`. -/
def populate_chart (page_to_words : List (Nat × List TextualWord)) : Chart :=
  page_to_words.foldl (fun st page => scan_page page.2 st) ⟨none, none, false⟩

theorem name_step_dob (words : List TextualWord) (i : Nat) (st : Chart) :
    (name_step words i st).dob = st.dob := by
  simp only [name_step]
  split <;> rfl

theorem name_step_ekg (words : List TextualWord) (i : Nat) (st : Chart) :
    (name_step words i st).has_valid_ekg = st.has_valid_ekg := by
  simp only [name_step]
  split <;> rfl

theorem dob_step_name (words : List TextualWord) (i : Nat) (st : Chart) :
    (dob_step words i st).name = st.name := by
  simp only [dob_step]
  split
  · split
    · split <;> rfl
    · rfl
  · rfl

theorem dob_step_ekg (words : List TextualWord) (i : Nat) (st : Chart) :
    (dob_step words i st).has_valid_ekg = st.has_valid_ekg := by
  simp only [dob_step]
  split
  · split
    · split <;> rfl
    · rfl
  · rfl

theorem ekg_step_name (words : List TextualWord) (i : Nat) (st : Chart) :
    (ekg_step words i st).name = st.name := by
  simp only [ekg_step]
  split <;> rfl

theorem ekg_step_dob (words : List TextualWord) (i : Nat) (st : Chart) :
    (ekg_step words i st).dob = st.dob := by
  simp only [ekg_step]
  split <;> rfl

theorem scan_step_name (words : List TextualWord) (i : Nat) (st : Chart) :
    (scan_step words st i).name = (name_step words i st).name := by
  simp only [scan_step, ekg_step_name, dob_step_name]

theorem scan_step_dob (words : List TextualWord) (i : Nat) (st : Chart) :
    (scan_step words st i).dob = (dob_step words i (name_step words i st)).dob := by
  simp only [scan_step, ekg_step_dob]

theorem takeWhileB_congr {α : Type} (p q : α → Bool) (l : List α)
    (h : ∀ a, p a = q a) : l.takeWhile p = l.takeWhile q := by
  induction l with
  | nil => rfl
  | cons a t ih =>
    by_cases hp : p a = true
    · rw [List.takeWhile_cons_of_pos hp, List.takeWhile_cons_of_pos (h a ▸ hp), ih]
    · rw [List.takeWhile_cons_of_neg hp, List.takeWhile_cons_of_neg (h a ▸ hp)]

/-- C3 as frozen is refuted at the boundary: on the single-token page
`["PatientName"]` the token's lowercased, space-removed text is
`"patientname"`, yet `populate_chart` leaves `name` absent (the code only
runs the name check when a next token exists). -/
theorem name_trigger_boundary_counterexample :
    removeSpaces ((pyLower "PatientName")) = "patientname" ∧
    (populate_chart [(0, [⟨0, 0, "PatientName"⟩])]).name = none := by
  constructor
  · decide
  · decide

/-- C3 (amended): the name check triggers whenever a next token exists
(`i+1 < len`) and the token's lowercased space-removed text is
`"patientname"`, or the token text is `"patient"` (case-insensitive) and the
next token's text starts with `"name"` (case-insensitive); on trigger `name`
is set — overwriting any earlier value — to the texts of the tokens from
`i+2` on, joined with single spaces, stopping before the first token whose
lowercased text is a stop word; without a trigger `name` is unchanged. -/
theorem name_extraction (words : List TextualWord) (i : Nat) (st : Chart) :
    (i + 1 < words.length →
      (removeSpaces (pyLower (words.getD i dw).text) = "patientname" ∨
        (pyLower (words.getD i dw).text = "patient" ∧
          pyStartsWith (pyLower (words.getD (i + 1) dw).text) "name" = true)) →
      (scan_step words st i).name =
        some (" ".intercalate
          (((words.drop (i + 2)).takeWhile
              (fun w => decide ((pyLower w.text) ∉ name_stop_words))).map
            (fun w => w.text)))) ∧
    (name_trigger words i = false → (scan_step words st i).name = st.name) := by
  constructor
  · intro hlen htrig
    have ht : name_trigger words i = true := by
      simp only [name_trigger, Bool.and_eq_true, decide_eq_true_eq,
        Bool.or_eq_true, beq_iff_eq]
      refine ⟨hlen, ?_⟩
      rcases htrig with h | ⟨h1, h2⟩
      · exact Or.inl h
      · exact Or.inr ⟨h1, h2⟩
    rw [scan_step_name]
    simp only [name_step, ht, if_true]
    simp only [name_value]
    have heq : List.takeWhile
        (fun w : TextualWord => !name_stop_words.contains (pyLower w.text))
        (List.drop (i + 2) words) =
      List.takeWhile
        (fun w : TextualWord => decide ((pyLower w.text) ∉ name_stop_words))
        (List.drop (i + 2) words) := by
      refine takeWhileB_congr _ _ _ (fun w => ?_)
      by_cases h : (pyLower w.text) ∈ name_stop_words <;> simp [h]
    rw [heq]
  · intro ht
    rw [scan_step_name]
    simp [name_step, ht]

/-- Closed instance of `name_extraction`: the trigger
`"Patient" "Name"` followed by `"John" "Doe"` and the stop word `"DOB:"`
produces `name = "John Doe"`. -/
theorem name_extraction_witness :
    (scan_step
      [⟨0, 0, "Patient"⟩, ⟨0, 0, "Name"⟩, ⟨0, 0, "John"⟩, ⟨0, 0, "Doe"⟩,
        ⟨0, 0, "DOB:"⟩]
      ⟨none, none, false⟩ 0).name = some "John Doe" := by
  have h := (name_extraction
    [⟨0, 0, "Patient"⟩, ⟨0, 0, "Name"⟩, ⟨0, 0, "John"⟩, ⟨0, 0, "Doe"⟩,
      ⟨0, 0, "DOB:"⟩]
    0 ⟨none, none, false⟩).1 (by decide) (Or.inr ⟨by decide, by decide⟩)
  exact h.trans (by decide)

/-- C10: when the name check triggers but the page ends at the trigger's next
token, or the first token after the window is itself a stop word, the name is
set to the empty string — overwriting any previously extracted name. -/
theorem name_empty_on_boundary (words : List TextualWord) (i : Nat) (st : Chart) :
    name_trigger words i = true →
    (words.drop (i + 2) = [] ∨
      (∃ w rest, words.drop (i + 2) = w :: rest ∧
        (pyLower w.text) ∈ name_stop_words)) →
    (scan_step words st i).name = some "" := by
  intro ht hb
  rw [scan_step_name]
  simp only [name_step, ht, if_true]
  rcases hb with hb | ⟨w, rest, hb, hw⟩
  · simp [name_value, hb, String.intercalate]
  · simp only [name_value, hb]
    rw [List.takeWhile_cons_of_neg]
    · rfl
    · simp [hw]

/-- Closed instance of `name_empty_on_boundary`: the two-token page
`["Patient", "Name"]` overwrites an earlier name `"John Doe"` with `""`. -/
theorem name_empty_on_boundary_witness :
    (scan_step [⟨0, 0, "Patient"⟩, ⟨0, 0, "Name"⟩]
      ⟨some "John Doe", none, false⟩ 0).name = some "" := by
  exact name_empty_on_boundary [⟨0, 0, "Patient"⟩, ⟨0, 0, "Name"⟩] 0
    ⟨some "John Doe", none, false⟩ (by decide) (Or.inl (by decide))

/-- C4: whenever a token's trimmed, lowercased text is `"dob:"` and a next
token exists, that next token's text is run through the `%m/%d/%Y` parser: a
successful parse is stored in `dob`, a failed parse leaves `dob` unchanged
and the (total) scan continues; in particular the page
`["DOB:", "not-a-date"]` produces a chart with `dob` absent. -/
theorem dob_extraction (words : List TextualWord) (i : Nat) (st : Chart) :
    (pyLower (pyStrip (words.getD i dw).text) = "dob:" → i + 1 < words.length →
      (∀ d, parse_mdY (words.getD (i + 1) dw).text = some d →
        (scan_step words st i).dob = some d) ∧
      (parse_mdY (words.getD (i + 1) dw).text = none →
        (scan_step words st i).dob = st.dob)) ∧
    (populate_chart [(0, [⟨0, 0, "DOB:"⟩, ⟨0, 0, "not-a-date"⟩])]).dob = none := by
  constructor
  · intro htrig hlen
    simp only [scan_step_dob]
    constructor
    · intro d hd
      simp only [dob_step, htrig, beq_self_eq_true, if_true, if_pos hlen, hd]
    · intro hd
      simp only [dob_step, htrig, beq_self_eq_true, if_true, if_pos hlen, hd,
        name_step_dob]
  · decide

/-- Closed instance of `dob_extraction`: `["DOB:", "01/02/1980"]` stores
January 2, 1980. -/
theorem dob_extraction_witness :
    (scan_step [⟨0, 0, "DOB:"⟩, ⟨0, 0, "01/02/1980"⟩]
      ⟨none, none, false⟩ 0).dob = some ⟨1980, 1, 2⟩ := by
  exact ((dob_extraction [⟨0, 0, "DOB:"⟩, ⟨0, 0, "01/02/1980"⟩] 0
    ⟨none, none, false⟩).1 (by decide) (by decide)).1 ⟨1980, 1, 2⟩ (by decide)

theorem scan_step_ekg (words : List TextualWord) (i : Nat) (st : Chart) :
    (scan_step words st i).has_valid_ekg =
      (st.has_valid_ekg || ekg_cond words i) := by
  simp only [scan_step, ekg_step, dob_step_ekg, name_step_ekg]
  by_cases h : ekg_cond words i = true
  · simp [h, dob_step_ekg, name_step_ekg]
  · simp only [h, if_false, Bool.false_eq_true, dob_step_ekg, name_step_ekg]
    simp at h
    simp [h]

theorem foldl_range_ekg (words : List TextualWord) :
    ∀ n (st : Chart),
      (((List.range n).foldl (scan_step words) st).has_valid_ekg =
        (st.has_valid_ekg || (List.range n).any (ekg_cond words))) := by
  intro n
  induction n with
  | zero => simp
  | succ n ih =>
    intro st
    rw [List.range_succ, List.foldl_append, List.any_append]
    simp only [List.foldl_cons, List.foldl_nil, List.any_cons, List.any_nil,
      scan_step_ekg, ih, Bool.or_false, Bool.or_assoc]

theorem scan_page_ekg (words : List TextualWord) (st : Chart) :
    (scan_page words st).has_valid_ekg =
      (st.has_valid_ekg || (List.range words.length).any (ekg_cond words)) :=
  foldl_range_ekg words words.length st

theorem populate_chart_ekg :
    ∀ (pages : List (Nat × List TextualWord)) (st : Chart),
      ((pages.foldl (fun st page => scan_page page.2 st) st).has_valid_ekg =
        (st.has_valid_ekg ||
          pages.any (fun p => (List.range p.2.length).any (ekg_cond p.2)))) := by
  intro pages
  induction pages with
  | nil => simp
  | cons p ps ih =>
    intro st
    rw [List.foldl_cons, List.any_cons, ih, scan_page_ekg, Bool.or_assoc]

/-- C5: the chart's `has_valid_ekg` is true iff some page contains three
consecutive tokens whose lowercased texts are `"ekg"`, `"results"`,
`"valid"`; it defaults to false and once true is never reset. -/
theorem ekg_detection (pages : List (Nat × List TextualWord)) :
    (populate_chart pages).has_valid_ekg = true ↔
      ∃ p ∈ pages, ∃ i, i + 2 < p.2.length ∧
        pyLower (p.2.getD i dw).text = "ekg" ∧
        pyLower (p.2.getD (i + 1) dw).text = "results" ∧
        pyLower (p.2.getD (i + 2) dw).text = "valid" := by
  rw [populate_chart, populate_chart_ekg]
  simp only [Bool.false_or, List.any_eq_true, List.mem_range, ekg_cond,
    Bool.and_eq_true, decide_eq_true_eq, beq_iff_eq]
  constructor
  · rintro ⟨p, hp, i, hrange, hi2, h1, h2, h3⟩
    exact ⟨p, hp, i, by omega, h1, h2, h3⟩
  · rintro ⟨p, hp, i, hi, h1, h2, h3⟩
    exact ⟨p, hp, i, by omega, by omega, h1, h2, h3⟩

/-- Closed instance of `ekg_detection`: the triple `"EKG" "Results" "Valid"`
sets the flag. -/
theorem ekg_detection_witness :
    (populate_chart
      [(0, [⟨0, 0, "EKG"⟩, ⟨0, 0, "Results"⟩, ⟨0, 0, "Valid"⟩,
            ⟨0, 0, "later"⟩])]).has_valid_ekg = true := by
  exact (ekg_detection
    [(0, [⟨0, 0, "EKG"⟩, ⟨0, 0, "Results"⟩, ⟨0, 0, "Valid"⟩,
          ⟨0, 0, "later"⟩])]).2
    ⟨(0, [⟨0, 0, "EKG"⟩, ⟨0, 0, "Results"⟩, ⟨0, 0, "Valid"⟩, ⟨0, 0, "later"⟩]),
      by simp, 0, by decide, by decide, by decide, by decide⟩

/-- C7: for a present date of birth, `age` is the year difference minus one
exactly when (reference month, reference day) is lexicographically below
(birth month, birth day); on 2024-06-14 a birth date 2000-06-15 gives 23 and
2000-06-14 gives 24. -/
theorem age_formula (c : Chart) (today d : PyDate) :
    (c.dob = some d →
      ((today.month < d.month ∨ (today.month = d.month ∧ today.day < d.day)) →
        c.age today = Except.ok ((today.year : Int) - (d.year : Int) - 1)) ∧
      (¬(today.month < d.month ∨ (today.month = d.month ∧ today.day < d.day)) →
        c.age today = Except.ok ((today.year : Int) - (d.year : Int)))) ∧
    Chart.age ⟨none, some ⟨2000, 6, 15⟩, false⟩ ⟨2024, 6, 14⟩ = Except.ok 23 ∧
    Chart.age ⟨none, some ⟨2000, 6, 14⟩, false⟩ ⟨2024, 6, 14⟩ = Except.ok 24 := by
  refine ⟨?_, by rfl, by rfl⟩
  intro hd
  constructor
  · intro hlt
    simp only [Chart.age, hd, age_of, tupleLt]
    rw [if_pos]
    simpa using hlt
  · intro hge
    simp only [Chart.age, hd, age_of, tupleLt]
    rw [if_neg, sub_zero]
    simpa using hge

/-- Closed instance of `age_formula`: birthday not yet reached in the
reference year. -/
theorem age_formula_witness :
    Chart.age ⟨none, some ⟨2000, 9, 1⟩, false⟩ ⟨2024, 3, 5⟩ =
      Except.ok ((2024 : Int) - (2000 : Int) - 1) := by
  exact ((age_formula ⟨none, some ⟨2000, 9, 1⟩, false⟩ ⟨2024, 3, 5⟩
    ⟨2000, 9, 1⟩).1 rfl).1 (by decide)

/-- C8: computing `age` on a chart whose date of birth is absent yields an
error signalled to the caller — never an ordinary value. -/
theorem age_requires_dob (c : Chart) (today : PyDate) :
    c.dob = none →
      c.age today = Except.error "dateOfBirth is absent" ∧
      ∀ v : Int, c.age today ≠ Except.ok v := by
  intro h
  simp [Chart.age, h]

/-- Closed instance of `age_requires_dob`. -/
theorem age_requires_dob_witness :
    Chart.age ⟨none, none, false⟩ ⟨2024, 6, 14⟩ =
        Except.error "dateOfBirth is absent" ∧
      ∀ v : Int, Chart.age ⟨none, none, false⟩ ⟨2024, 6, 14⟩ ≠ Except.ok v := by
  exact age_requires_dob ⟨none, none, false⟩ ⟨2024, 6, 14⟩ rfl

/-- ASCII model of the regex class `\w`: letters, digits, underscore. -/
def isWordChar (c : Char) : Bool :=
  ('a' ≤ c ∧ c ≤ 'z') ∨ ('A' ≤ c ∧ c ≤ 'Z') ∨ ('0' ≤ c ∧ c ≤ '9') ∨ c = '_'

/-- Lookbehind `(?<=\.|\?)`: the previous character is `.` or `?`.  `rev` is
the reversed prefix of consumed characters. -/
def lookPunct (rev : List Char) : Bool :=
  match rev with
  | p :: _ => p = '.' ∨ p = '?'
  | [] => false

/-- Negative-lookbehind body `\w\.\w.`: the four characters before the
current position are word char, dot, word char, then any non-newline. -/
def lookAbbrevWord (rev : List Char) : Bool :=
  match rev with
  | a :: b :: c :: d :: _ => a ≠ '\n' ∧ isWordChar b ∧ c = '.' ∧ isWordChar d
  | _ => false

/-- Negative-lookbehind body `[A-Z][a-z]\.`: the three characters before the
current position are an uppercase letter, a lowercase letter and a dot. -/
def lookAbbrevCap (rev : List Char) : Bool :=
  match rev with
  | a :: b :: c :: _ =>
    a = '.' ∧ ('a' ≤ b ∧ b ≤ 'z') ∧ ('A' ≤ c ∧ c ≤ 'Z')
  | _ => false

/-- First alternative of the sentence-splitting regex
`(?<!\w\.\w.)(?<![A-Z][a-z]\.)(?<=\.|\?)\s`: one whitespace character
preceded by `.` or `?` and not preceded by an abbreviation pattern. -/
def sentenceBoundary (rev : List Char) (c : Char) : Bool :=
  isPySpace c && lookPunct rev && !(lookAbbrevWord rev) && !(lookAbbrevCap rev)

/-- The splitting scan of `re.split(pattern, text)` for the sentence pattern:
`rev` is the reversed consumed prefix, `cur` the reversed current piece,
`inNl` whether the scan is inside a greedy `\n+` match. -/
def sentence_split_go (rev cur : List Char) (inNl : Bool) :
    List Char → List (List Char)
  | [] => [cur.reverse]
  | c :: rest =>
    if inNl ∧ c = '\n' then
      sentence_split_go (c :: rev) cur true rest
    else if sentenceBoundary rev c then
      cur.reverse :: sentence_split_go (c :: rev) [] false rest
    else if c = '\n' then
      cur.reverse :: sentence_split_go (c :: rev) [] true rest
    else
      sentence_split_go (c :: rev) (c :: cur) false rest

/-- Sentence extraction from one page's text: split on the regex, strip each
piece, drop empty pieces. -/
def split_page_text (text : String) : List String :=
  (sentence_split_go [] [] false text.data).filterMap
    (fun p => if pyStripL p = [] then none else some (String.mk (pyStripL p)))

/-- `extract_sentences_from_pdf`: per page, a missing or empty text
contributes no sentences; page results are concatenated in order. -/
def extract_sentences_from_pdf (pages : List (Option String)) : List String :=
  (pages.map (fun o =>
    match o with
    | some t => if t = "" then [] else split_page_text t
    | none => [])).flatten

/-- Python `str.split()` (split on whitespace runs, no empty pieces):
`cur` is the reversed current word. -/
def pySplitGo (cur : List Char) : List Char → List (List Char)
  | [] => if cur = [] then [] else [cur.reverse]
  | c :: rest =>
    if isPySpace c then
      if cur = [] then pySplitGo [] rest
      else cur.reverse :: pySplitGo [] rest
    else
      pySplitGo (c :: cur) rest

/-- Python `title.split()`. -/
def pySplit (s : String) : List String :=
  (pySplitGo [] s.data).map String.mk

/-- The fixed set of recognized bold section titles in `display_sentences`. -/
def bold_titles : List String :=
  ["Patient Name:", "DOB:", "Procedures", "Lab Results",
   "Radiology Results", "EKG Results"]

/-- One title's acceptance test in `display_sentences`: the title occurs as a
substring of the sentence, and every whitespace-delimited word of the title
matches the text of some bold token. -/
def title_matches (extra_words : List ExtraTextualWord)
    (sentence title : String) : Bool :=
  pyIn title sentence &&
    (pySplit title).all
      (fun part => extra_words.any (fun w => w.text == part && w.is_bold))

/-- The loop of `display_sentences`, returning the emitted
(optional number, sentence) pairs; `count` is `numbered_count`. -/
def display_sentences_go (extra_words : List ExtraTextualWord) (count : Nat) :
    List String → List (Option Nat × String)
  | [] => []
  | s :: rest =>
    if bold_titles.any (title_matches extra_words s) then
      (some count, s) :: display_sentences_go extra_words (count + 1) rest
    else
      (none, s) :: display_sentences_go extra_words count rest

/-- `display_sentences(sentences, extra_words)` as the sequence of emitted
(optional number, sentence) pairs; numbering starts at 1. -/
def display_sentences (sentences : List String)
    (extra_words : List ExtraTextualWord) : List (Option Nat × String) :=
  display_sentences_go extra_words 1 sentences

theorem dropWhile_idem (p : Char → Bool) (l : List Char) :
    (l.dropWhile p).dropWhile p = l.dropWhile p := by
  induction l with
  | nil => rfl
  | cons a t ih =>
    by_cases h : p a = true
    · rw [List.dropWhile_cons_of_pos h]
      exact ih
    · rw [List.dropWhile_cons_of_neg h, List.dropWhile_cons_of_neg h]

theorem dropWhile_eq_self_of_prefix (p : Char → Bool) (l₁ l₂ : List Char)
    (hp : l₁ <+: l₂) (h : l₂.dropWhile p = l₂) : l₁.dropWhile p = l₁ := by
  cases l₁ with
  | nil => rfl
  | cons a t =>
    obtain ⟨r, rfl⟩ := hp
    have ha : ¬p a = true := by
      rw [List.dropWhile_eq_self_iff] at h
      have := h (by simp)
      simpa using this
    exact List.dropWhile_cons_of_neg ha

theorem pyStripL_no_lead (l : List Char) :
    (pyStripL l).dropWhile isPySpace = pyStripL l := by
  have hpre : pyStripL l <+: l.dropWhile isPySpace := by
    have hsuf : ((l.dropWhile isPySpace).reverse.dropWhile isPySpace) <:+
        (l.dropWhile isPySpace).reverse := List.dropWhile_suffix _
    have := List.reverse_prefix.2 hsuf
    rwa [List.reverse_reverse] at this
  exact dropWhile_eq_self_of_prefix isPySpace _ _ hpre (dropWhile_idem _ _)

theorem pyStripL_no_trail (l : List Char) :
    (pyStripL l).reverse.dropWhile isPySpace = (pyStripL l).reverse := by
  rw [pyStripL, List.reverse_reverse]
  exact dropWhile_idem _ _

/-- C9: the splitter keeps "Dr." intact but splits after "patient.", giving
exactly two sentences on the example text; and on every input, every emitted
sentence is non-empty and carries no leading or trailing whitespace. -/
theorem sentence_segmentation :
    split_page_text "Dr. Smith saw the patient. He is well." =
      ["Dr. Smith saw the patient.", "He is well."] ∧
    ∀ (text : String), ∀ s ∈ split_page_text text,
      s ≠ "" ∧ s.data.dropWhile isPySpace = s.data ∧
        s.data.reverse.dropWhile isPySpace = s.data.reverse := by
  constructor
  · decide
  · intro text s hs
    rw [split_page_text, List.mem_filterMap] at hs
    obtain ⟨p, _, hfp⟩ := hs
    by_cases h : pyStripL p = []
    · rw [if_pos h] at hfp
      exact absurd hfp (by simp)
    · rw [if_neg h] at hfp
      have hsp := Option.some.inj hfp
      subst hsp
      refine ⟨?_, pyStripL_no_lead p, pyStripL_no_trail p⟩
      intro heq
      exact h (congrArg String.data heq)

/-- Closed instance of `sentence_segmentation`: the second emitted sentence
of the example text is clean. -/
theorem sentence_segmentation_witness :
    ("He is well." : String) ≠ "" ∧
      ("He is well." : String).data.dropWhile isPySpace =
        ("He is well." : String).data ∧
      ("He is well." : String).data.reverse.dropWhile isPySpace =
        ("He is well." : String).data.reverse := by
  exact sentence_segmentation.2 "Dr. Smith saw the patient. He is well."
    "He is well." (by decide)

theorem title_matches_iff (ew : List ExtraTextualWord) (s title : String) :
    title_matches ew s title = true ↔
      (title.data <:+: s.data ∧
        ∀ part ∈ pySplit title, ∃ w ∈ ew,
          w.text = part ∧ w.is_bold = true) := by
  simp [title_matches, pyIn, isInfixB_iff, List.all_eq_true, List.any_eq_true,
    Bool.and_eq_true, beq_iff_eq]

theorem display_go_spec (ew : List ExtraTextualWord) :
    ∀ (ss : List String) (c k : Nat), k < ss.length →
      ((display_sentences_go ew c ss).getD k (none, "")).2 = ss.getD k "" ∧
      (((display_sentences_go ew c ss).getD k (none, "")).1 ≠ none ↔
        bold_titles.any (title_matches ew (ss.getD k "")) = true) := by
  intro ss
  induction ss with
  | nil =>
    intro c k hk
    simp at hk
  | cons s rest ih =>
    intro c k hk
    by_cases hm : bold_titles.any (title_matches ew s) = true
    · cases k with
      | zero => simp [display_sentences_go, hm]
      | succ k =>
        simp only [display_sentences_go, hm, if_true, List.getD_cons_succ]
        exact ih (c + 1) k (by simpa using hk)
    · cases k with
      | zero => simp [display_sentences_go, hm]
      | succ k =>
        simp only [display_sentences_go, hm, if_false, Bool.false_eq_true,
          List.getD_cons_succ]
        exact ih c k (by simpa using hk)

/-- C6: a sentence is emitted numbered iff some recognized title is a literal
substring of the sentence and every whitespace-delimited word of that title
occurs as the exact, case-sensitive text of some bold token; otherwise the
sentence is emitted unnumbered (in place, text unchanged). -/
theorem classifier_numbering (sentences : List String)
    (extra_words : List ExtraTextualWord) (k : Nat)
    (hk : k < sentences.length) :
    ((display_sentences sentences extra_words).getD k (none, "")).2 =
      sentences.getD k "" ∧
    (((display_sentences sentences extra_words).getD k (none, "")).1 ≠ none ↔
      ∃ title ∈ bold_titles,
        title.data <:+: (sentences.getD k "").data ∧
        ∀ part ∈ pySplit title, ∃ w ∈ extra_words,
          w.text = part ∧ w.is_bold = true) := by
  obtain ⟨h1, h2⟩ := display_go_spec extra_words sentences 1 k hk
  refine ⟨h1, h2.trans ?_⟩
  simp only [List.any_eq_true]
  constructor
  · rintro ⟨t, ht, hmt⟩
    exact ⟨t, ht, (title_matches_iff extra_words _ t).1 hmt⟩
  · rintro ⟨t, ht, hmt⟩
    exact ⟨t, ht, (title_matches_iff extra_words _ t).2 hmt⟩

/-- Closed instance of `classifier_numbering`: "Lab Results are normal." is
numbered when both "Lab" and "Results" occur as bold token texts. -/
theorem classifier_numbering_witness :
    ((display_sentences ["Lab Results are normal."]
      [⟨⟨0, 0, "Lab"⟩, "Helvetica-Bold", 9⟩,
       ⟨⟨0, 0, "Results"⟩, "Helvetica-Bold", 9⟩]).getD 0 (none, "")).1 ≠
      none := by
  exact (classifier_numbering ["Lab Results are normal."]
    [⟨⟨0, 0, "Lab"⟩, "Helvetica-Bold", 9⟩,
     ⟨⟨0, 0, "Results"⟩, "Helvetica-Bold", 9⟩] 0 (by decide)).2.mpr
    ⟨"Lab Results", by decide, by decide, by decide⟩
